import Mathlib

/-!
Shallow embedding of `src/avery/controller.py` (the `AveryController` class),
a job-lease coordinator backed by a document store.

Modelling conventions:
* The document store (the Mongo collection `self._jobs`) is a `List JobDoc`;
  documents live in insertion order.  The store primitives `find_one`,
  `find_one_and_update`, `delete_one`, `insert_one` act on the first matching
  document, one concrete realisation of the store picking an unspecified
  matching document.
* Timestamps (`datetime.utcnow()`) are `Int` values supplied explicitly by the
  caller; `timedelta(minutes=10)` becomes `600` (seconds).
* Each controller call that performs a store round trip takes a `fault : Bool`
  flag: `fault = true` means the store raised `pymongo.errors.AutoReconnect`
  during that round trip, which the controller converts to `RetriableError`.
* Python exceptions become an `Except AveryError` result; the error messages of
  the source are elided (only the error kind matters).  Mutating calls return
  the post-call store alongside the result.
-/

namespace Avery

/-- Modelled from the spec: the status constants `IDLE`, `LOCKED`, `CANCELLED`
exposed by the job record model (`AveryJob` in `api.py`, a file not present in
the sources).  The spec lists them as distinct named states of the `status`
string field (section 3); the concrete string values are immaterial. -/
def IDLE : String := "IDLE"

/-- Modelled from the spec: see `IDLE`. -/
def LOCKED : String := "LOCKED"

/-- Modelled from the spec: see `IDLE`. -/
def CANCELLED : String := "CANCELLED"

/-- A stored job document.  Fields are those written by
`AveryController.create_job` and the mutating update operations; `worker_id`,
`worker_heartbeat` and `worker_exception` are absent (`none`) until first set.
The constructed `AveryJob` value (`_job_from_doc`) carries exactly these
fields, so the same type doubles as the job record returned to callers. -/
structure JobDoc where
  job_id : String
  tag : String
  args : List (String × String)
  version : Nat
  status : String
  worker_id : Option String := none
  worker_heartbeat : Option Int := none
  worker_exception : Option String := none
deriving DecidableEq, Repr

/-- Error kinds raised by the controller: `RetriableError` (store signalled
`AutoReconnect`), `ConcurrencyError` (conditional update or delete matched
nothing), and the Python `AttributeError` raised by `_job_from_doc` when
`find_one` returned `None` (`None.pop` in `get_job`). -/
inductive AveryError where
  | retriable
  | concurrency
  | attrError
deriving DecidableEq, Repr

/-- Decidable equality for `Except`, so that concrete runs of the controller
operations can be checked by `decide`. -/
instance instDecEqExcept {ε α : Type} [DecidableEq ε] [DecidableEq α] :
    DecidableEq (Except ε α) := fun x y =>
  match x, y with
  | Except.ok a, Except.ok b =>
      if h : a = b then isTrue (by rw [h]) else isFalse (fun hc => h (Except.ok.inj hc))
  | Except.error a, Except.error b =>
      if h : a = b then isTrue (by rw [h]) else isFalse (fun hc => h (Except.error.inj hc))
  | Except.ok _, Except.error _ => isFalse (fun hc => Except.noConfusion hc)
  | Except.error _, Except.ok _ => isFalse (fun hc => Except.noConfusion hc)

/-- Store primitive `find_one_and_update(query, update)`: atomically update the
first document matching `q` by `u` and return the post-update document
(`ReturnDocument.AFTER`), or return `none` and leave the store unchanged when
nothing matches. -/
def findOneAndUpdate (q : JobDoc → Bool) (u : JobDoc → JobDoc) :
    List JobDoc → Option JobDoc × List JobDoc
  | [] => (none, [])
  | d :: ds =>
    if q d then (some (u d), u d :: ds)
    else
      let r := findOneAndUpdate q u ds
      (r.1, d :: r.2)

/-- Store primitive `delete_one(query)`: remove the first document matching
`q`; the first component is the `deleted_count` (0 or 1). -/
def deleteOne (q : JobDoc → Bool) : List JobDoc → Nat × List JobDoc
  | [] => (0, [])
  | d :: ds =>
    if q d then (1, ds)
    else
      let r := deleteOne q ds
      (r.1, d :: r.2)

/-- Store primitive `insert_one(doc)` under the unique index on `job_id`:
`none` models `DuplicateKeyError`. -/
def insertOne (doc : JobDoc) (store : List JobDoc) : Option (List JobDoc) :=
  if store.any (fun d => d.job_id == doc.job_id) then none
  else some (store ++ [doc])

/-- Query document of `_update_job`: equality on `job_id` and `version`. -/
def updateJobQuery (job_id : String) (version : Nat) (d : JobDoc) : Bool :=
  d.job_id == job_id && d.version == version

/-- Update document of `_update_job`: `$inc` of `version` by 1 together with a
`$set` of the keyword fields (`kwargsSet`; the call sites never set `version`,
and `$inc` acts on the stored version). -/
def applyUpdate (kwargsSet : JobDoc → JobDoc) (d : JobDoc) : JobDoc :=
  { kwargsSet d with version := d.version + 1 }

/-- `AveryController._update_job(job_id, version, **kwargs)`: conditional
update keyed on `(job_id, version)`.  The post-update document fetched from the
store is only compared against `None` to detect a conflict; on success the
method returns `None` (first component `Except.ok none`), not the updated
record. -/
def updateJob (fault : Bool) (job_id : String) (version : Nat)
    (kwargsSet : JobDoc → JobDoc) (store : List JobDoc) :
    Except AveryError (Option JobDoc) × List JobDoc :=
  if fault then (Except.error AveryError.retriable, store)
  else
    let r := findOneAndUpdate (updateJobQuery job_id version) (applyUpdate kwargsSet) store
    match r.1 with
    | none => (Except.error AveryError.concurrency, r.2)
    | some _ => (Except.ok none, r.2)

/-- `AveryController._job_from_doc(doc)` applied to the result of `find_one`:
building `AveryJob` from a present document is the identity here, and
`doc.pop('job_id')` on a `None` document raises `AttributeError`. -/
def job_from_doc : Option JobDoc → Except AveryError JobDoc
  | some d => Except.ok d
  | none => Except.error AveryError.attrError

/-- `AveryController.get_job(job_id)`. -/
def get_job (fault : Bool) (job_id : String) (store : List JobDoc) :
    Except AveryError JobDoc :=
  if fault then Except.error AveryError.retriable
  else job_from_doc (store.find? (fun d => d.job_id == job_id))

/-- The document inserted by `create_job`: `version = 0`, `status = IDLE`,
payload `args or {}`. -/
def newJobDoc (job_id tag : String) (args : Option (List (String × String))) : JobDoc :=
  { job_id := job_id, tag := tag, args := args.getD [], version := 0, status := IDLE }

/-- `AveryController.create_job(job_id, tag, args=None)`: guarded insert;
`DuplicateKeyError` is swallowed (`pass`), `AutoReconnect` becomes
`RetriableError`. -/
def create_job (fault : Bool) (job_id tag : String)
    (args : Option (List (String × String))) (store : List JobDoc) :
    Except AveryError Unit × List JobDoc :=
  if fault then (Except.error AveryError.retriable, store)
  else
    match insertOne (newJobDoc job_id tag args) store with
    | some store' => (Except.ok (), store')
    | none => (Except.ok (), store)

/-- `AveryController.cancel_job(job_id, version)`. -/
def cancel_job (fault : Bool) (job_id : String) (version : Nat)
    (store : List JobDoc) : Except AveryError (Option JobDoc) × List JobDoc :=
  updateJob fault job_id version (fun d => { d with status := CANCELLED }) store

/-- `AveryController.delete_job(job_id, version)`: conditional delete keyed on
`(job_id, version)`; `deleted_count == 0` raises `ConcurrencyError`; the
source then asserts `deleted_count == 1`. -/
def delete_job (fault : Bool) (job_id : String) (version : Nat)
    (store : List JobDoc) : Except AveryError Unit × List JobDoc :=
  if fault then (Except.error AveryError.retriable, store)
  else
    let r := deleteOne (fun d => d.job_id == job_id && d.version == version) store
    if r.1 == 0 then (Except.error AveryError.concurrency, r.2)
    else (Except.ok (), r.2)

/-- `AveryController._find_one_and_update(query, update)` (worker side):
returns the job built from the post-update document, or `None` when nothing
matched; `AutoReconnect` becomes `RetriableError`. -/
def worker_update (fault : Bool) (q : JobDoc → Bool) (u : JobDoc → JobDoc)
    (store : List JobDoc) : Except AveryError (Option JobDoc) × List JobDoc :=
  if fault then (Except.error AveryError.retriable, store)
  else
    let r := findOneAndUpdate q u store
    (Except.ok r.1, r.2)

/-- Query of `_try_acquire_idle_job`: `tag` in the requested set and
`status = IDLE`. -/
def idleQuery (tags : List String) (d : JobDoc) : Bool :=
  tags.contains d.tag && d.status == IDLE

/-- Update shared by both acquisition phases: `$inc` version, `$set`
`status = LOCKED`, `worker_id`, `worker_heartbeat = now`. -/
def acquireUpdate (worker_id : String) (now : Int) (d : JobDoc) : JobDoc :=
  { d with version := d.version + 1, status := LOCKED,
           worker_id := some worker_id, worker_heartbeat := some now }

/-- `AveryController._try_acquire_idle_job(tags, worker_id)`; `now` is the
`datetime.utcnow()` taken when building the update document. -/
def try_acquire_idle_job (fault : Bool) (now : Int) (tags : List String)
    (worker_id : String) (store : List JobDoc) :
    Except AveryError (Option JobDoc) × List JobDoc :=
  worker_update fault (idleQuery tags) (acquireUpdate worker_id now) store

/-- `AveryController.HEARTBEAT_TIMEOUT = timedelta(minutes=10)`, in seconds. -/
def HEARTBEAT_TIMEOUT : Int := 10 * 60

/-- Query of `_try_reacquire_locked_job`: `tag` in the requested set,
`status = LOCKED`, and `worker_heartbeat < nowQ - HEARTBEAT_TIMEOUT` (a Mongo
`$lt` does not match a document missing the field). -/
def staleQuery (tags : List String) (nowQ : Int) (d : JobDoc) : Bool :=
  tags.contains d.tag && d.status == LOCKED &&
    (match d.worker_heartbeat with
     | some h => decide (h < nowQ - HEARTBEAT_TIMEOUT)
     | none => false)

/-- `AveryController._try_reacquire_locked_job(tags, worker_id)`; the source
calls `datetime.utcnow()` twice, once in the query (`nowQ`) and once in the
update document (`nowS`). -/
def try_reacquire_locked_job (fault : Bool) (nowQ nowS : Int) (tags : List String)
    (worker_id : String) (store : List JobDoc) :
    Except AveryError (Option JobDoc) × List JobDoc :=
  worker_update fault (staleQuery tags nowQ) (acquireUpdate worker_id nowS) store

/-- `AveryController.acquire_job(tags, worker_id)`: idle claim first, then the
stale-lease reclaim only when the idle phase found nothing; `none` when neither
phase found a job. -/
def acquire_job (fault1 fault2 : Bool) (tIdle nowQ nowS : Int)
    (tags : List String) (worker_id : String) (store : List JobDoc) :
    Except AveryError (Option JobDoc) × List JobDoc :=
  let r1 := try_acquire_idle_job fault1 tIdle tags worker_id store
  match r1.1 with
  | Except.error e => (Except.error e, r1.2)
  | Except.ok (some j) => (Except.ok (some j), r1.2)
  | Except.ok none => try_reacquire_locked_job fault2 nowQ nowS tags worker_id r1.2

/-- `AveryController.heartbeat_job(job_id, version)`; `now` is
`datetime.utcnow()`. -/
def heartbeat_job (fault : Bool) (now : Int) (job_id : String) (version : Nat)
    (store : List JobDoc) : Except AveryError (Option JobDoc) × List JobDoc :=
  updateJob fault job_id version (fun d => { d with worker_heartbeat := some now }) store

/-- `AveryController.finalize_job(job_id, version, status, worker_exception=None)`. -/
def finalize_job (fault : Bool) (job_id : String) (version : Nat)
    (status : String) (worker_exception : Option String) (store : List JobDoc) :
    Except AveryError (Option JobDoc) × List JobDoc :=
  updateJob fault job_id version
    (fun d => { d with status := status, worker_exception := worker_exception }) store

end Avery

namespace Avery

/-! ### Structural lemmas about the store primitives -/

theorem findOneAndUpdate_cases (q : JobDoc → Bool) (u : JobDoc → JobDoc) (s : List JobDoc) :
    (findOneAndUpdate q u s = (none, s) ∧ ∀ d ∈ s, q d = false) ∨
    (∃ l1 d l2, s = l1 ++ d :: l2 ∧ (∀ e ∈ l1, q e = false) ∧ q d = true ∧
      findOneAndUpdate q u s = (some (u d), l1 ++ u d :: l2)) := by
  induction s with
  | nil => exact Or.inl ⟨rfl, fun d hd => absurd hd (List.not_mem_nil d)⟩
  | cons d ds ih =>
    cases hq : q d with
    | false =>
      rcases ih with ⟨heq, hall⟩ | ⟨l1, e, l2, hs, hl1, hqe, heq⟩
      · refine Or.inl ⟨?_, ?_⟩
        · simp [findOneAndUpdate, hq, heq]
        · intro x hx
          rcases List.mem_cons.mp hx with rfl | hx
          · exact hq
          · exact hall x hx
      · refine Or.inr ⟨d :: l1, e, l2, by rw [hs]; rfl, ?_, hqe, ?_⟩
        · intro x hx
          rcases List.mem_cons.mp hx with rfl | hx
          · exact hq
          · exact hl1 x hx
        · simp [findOneAndUpdate, hq, heq]
    | true =>
      refine Or.inr ⟨[], d, ds, rfl, fun e he => absurd he (List.not_mem_nil e), hq, ?_⟩
      simp [findOneAndUpdate, hq]

theorem findOneAndUpdate_of_no_match (q : JobDoc → Bool) (u : JobDoc → JobDoc)
    (s : List JobDoc) (h : ∀ d ∈ s, q d = false) :
    findOneAndUpdate q u s = (none, s) := by
  rcases findOneAndUpdate_cases q u s with ⟨heq, _⟩ | ⟨l1, d, l2, hs, _, hqd, _⟩
  · exact heq
  · exact absurd (h d (hs ▸ List.mem_append_right l1 (List.mem_cons_self d l2))) (by simp [hqd])

theorem findOneAndUpdate_mem_of_not_matching (q : JobDoc → Bool) (u : JobDoc → JobDoc)
    (s : List JobDoc) (d : JobDoc) (hd : d ∈ s) (hq : q d = false) :
    d ∈ (findOneAndUpdate q u s).2 := by
  induction s with
  | nil => exact absurd hd (List.not_mem_nil d)
  | cons x xs ih =>
    cases hqx : q x with
    | false =>
      rcases List.mem_cons.mp hd with rfl | hd
      · simp [findOneAndUpdate, hqx]
      · simpa [findOneAndUpdate, hqx] using Or.inr (ih hd)
    | true =>
      rcases List.mem_cons.mp hd with rfl | hd
      · exact absurd hqx (by simp [hq])
      · simpa [findOneAndUpdate, hqx] using Or.inr hd

theorem deleteOne_cases (q : JobDoc → Bool) (s : List JobDoc) :
    (deleteOne q s = (0, s) ∧ ∀ d ∈ s, q d = false) ∨
    (∃ l1 d l2, s = l1 ++ d :: l2 ∧ (∀ e ∈ l1, q e = false) ∧ q d = true ∧
      deleteOne q s = (1, l1 ++ l2)) := by
  induction s with
  | nil => exact Or.inl ⟨rfl, fun d hd => absurd hd (List.not_mem_nil d)⟩
  | cons d ds ih =>
    cases hq : q d with
    | false =>
      rcases ih with ⟨heq, hall⟩ | ⟨l1, e, l2, hs, hl1, hqe, heq⟩
      · refine Or.inl ⟨?_, ?_⟩
        · simp [deleteOne, hq, heq]
        · intro x hx
          rcases List.mem_cons.mp hx with rfl | hx
          · exact hq
          · exact hall x hx
      · refine Or.inr ⟨d :: l1, e, l2, by rw [hs]; rfl, ?_, hqe, ?_⟩
        · intro x hx
          rcases List.mem_cons.mp hx with rfl | hx
          · exact hq
          · exact hl1 x hx
        · simp [deleteOne, hq, heq]
    | true =>
      refine Or.inr ⟨[], d, ds, rfl, fun e he => absurd he (List.not_mem_nil e), hq, ?_⟩
      simp [deleteOne, hq]

/-! ### Bridges between the Bool query documents and propositions -/

theorem updateJobQuery_eq_true (jid : String) (v : Nat) (d : JobDoc) :
    updateJobQuery jid v d = true ↔ d.job_id = jid ∧ d.version = v := by
  simp [updateJobQuery]

theorem updateJobQuery_eq_false (jid : String) (v : Nat) (d : JobDoc) :
    updateJobQuery jid v d = false ↔ ¬(d.job_id = jid ∧ d.version = v) := by
  rw [← updateJobQuery_eq_true jid v d]
  simp

/-! ### The atomic update primitive -/

theorem updateJob_of_no_match (jid : String) (v : Nat) (f : JobDoc → JobDoc)
    (s : List JobDoc) (hno : ∀ d ∈ s, ¬(d.job_id = jid ∧ d.version = v)) :
    updateJob false jid v f s = (Except.error AveryError.concurrency, s) := by
  have h := findOneAndUpdate_of_no_match (updateJobQuery jid v) (applyUpdate f) s
    (fun d hd => (updateJobQuery_eq_false jid v d).mpr (hno d hd))
  simp [updateJob, h]

theorem updateJob_of_match (jid : String) (v : Nat) (f : JobDoc → JobDoc)
    (s : List JobDoc) (hex : ∃ d ∈ s, d.job_id = jid ∧ d.version = v) :
    ∃ l1 d l2, s = l1 ++ d :: l2 ∧ d.job_id = jid ∧ d.version = v ∧
      (∀ e ∈ l1, ¬(e.job_id = jid ∧ e.version = v)) ∧
      updateJob false jid v f s =
        (Except.ok none, l1 ++ { f d with version := v + 1 } :: l2) := by
  rcases findOneAndUpdate_cases (updateJobQuery jid v) (applyUpdate f) s with
    ⟨_, hall⟩ | ⟨l1, d, l2, hs, hl1, hqd, heq⟩
  · rcases hex with ⟨d, hd, hm⟩
    exact absurd ((updateJobQuery_eq_true jid v d).mpr hm) (by simp [hall d hd])
  · rcases (updateJobQuery_eq_true jid v d).mp hqd with ⟨hid, hv⟩
    refine ⟨l1, d, l2, hs, hid, hv, fun e he => (updateJobQuery_eq_false jid v e).mp (hl1 e he), ?_⟩
    have : applyUpdate f d = { f d with version := v + 1 } := by
      simp [applyUpdate, hv]
    simp [updateJob, heq, this]

end Avery

namespace Avery

/-- A sample idle job used by concrete witnesses and counterexamples. -/
def sampleIdle : JobDoc :=
  { job_id := "j", tag := "t", args := [], version := 0, status := IDLE }

/-- C1, counterexample: on a store holding exactly the job `("j", version 0)`,
the mutation `cancel_job` (which funnels through `_update_job`) succeeds and
the store now holds the post-increment record, but the value handed back to
the caller is `None` (`Except.ok none`) — `_update_job` fetches the updated
document only to compare it with `None` and then drops it — not the updated
post-increment record the claim promises. -/
theorem c1_counterexample :
    cancel_job false "j" 0 [sampleIdle] =
      (Except.ok none, [{ sampleIdle with status := CANCELLED, version := 1 }]) ∧
    (cancel_job false "j" 0 [sampleIdle]).1 ≠
      Except.ok (some { sampleIdle with status := CANCELLED, version := 1 }) := by
  refine ⟨by decide, ?_⟩
  intro h
  rw [show (cancel_job false "j" 0 [sampleIdle]).1 = Except.ok none from by decide] at h
  exact Option.noConfusion (Except.ok.inj h)

/-- C1 (amended): for every `job_id` and expected version, if a record with
that `job_id` and exactly that version exists in the store, the atomic update
primitive (used by `cancel_job`, `heartbeat_job`, `finalize_job`) applies the
given field assignments and sets the record's version to `expected_version + 1`
in the store; the post-increment record is read back from the store only to
detect success, and the primitive returns `None` to the caller (not the
updated record). -/
theorem c1_update_applies_and_returns_none (jid : String) (v : Nat)
    (f : JobDoc → JobDoc) (s : List JobDoc)
    (hex : ∃ d ∈ s, d.job_id = jid ∧ d.version = v) :
    ∃ l1 d l2, s = l1 ++ d :: l2 ∧ d.job_id = jid ∧ d.version = v ∧
      updateJob false jid v f s =
        (Except.ok none, l1 ++ { f d with version := v + 1 } :: l2) := by
  rcases updateJob_of_match jid v f s hex with ⟨l1, d, l2, hs, hid, hv, _, heq⟩
  exact ⟨l1, d, l2, hs, hid, hv, heq⟩

/-- Witness for `c1_update_applies_and_returns_none` at the store
`[sampleIdle]`, with the field assignment performed by `cancel_job`. -/
theorem c1_witness :
    ∃ l1 d l2, [sampleIdle] = l1 ++ d :: l2 ∧ d.job_id = "j" ∧ d.version = 0 ∧
      updateJob false "j" 0 (fun e => { e with status := CANCELLED }) [sampleIdle] =
        (Except.ok none,
          l1 ++ { { d with status := CANCELLED } with version := 0 + 1 } :: l2) :=
  c1_update_applies_and_returns_none "j" 0 (fun e => { e with status := CANCELLED })
    [sampleIdle] ⟨sampleIdle, by decide, by decide, by decide⟩

/-- C2: a mutation attempt through the atomic update primitive raises
`ConcurrencyError` exactly when no record matches `(job_id, version)` (whether
the job does not exist or its version moved), raises `RetriableError` when the
store signals a transient connectivity fault, and an attempt with a stale
(non-matching) version leaves the store unchanged. -/
theorem c2_update_failure_contract (jid : String) (v : Nat)
    (f : JobDoc → JobDoc) (s : List JobDoc) :
    ((updateJob false jid v f s).1 = Except.error AveryError.concurrency ↔
       ¬ ∃ d ∈ s, d.job_id = jid ∧ d.version = v) ∧
    updateJob true jid v f s = (Except.error AveryError.retriable, s) ∧
    ((¬ ∃ d ∈ s, d.job_id = jid ∧ d.version = v) →
       (updateJob false jid v f s).2 = s) := by
  have hno : (¬ ∃ d ∈ s, d.job_id = jid ∧ d.version = v) →
      updateJob false jid v f s = (Except.error AveryError.concurrency, s) := by
    intro h
    exact updateJob_of_no_match jid v f s (fun d hd hm => h ⟨d, hd, hm⟩)
  refine ⟨⟨?_, fun h => by rw [hno h]⟩, by simp [updateJob], fun h => by rw [hno h]⟩
  intro herr
  intro hex
  rcases updateJob_of_match jid v f s hex with ⟨l1, d, l2, _, _, _, _, heq⟩
  rw [heq] at herr
  exact Except.noConfusion herr

/-- Witness for `c2_update_failure_contract`: version 5 is stale on the store
`[sampleIdle]` (whose only record has version 0), so the attempt raises
`ConcurrencyError` and leaves the store unchanged; with a transient fault the
same attempt raises `RetriableError`. -/
theorem c2_witness :
    (updateJob false "j" 5 (fun e => { e with status := CANCELLED }) [sampleIdle]).1 =
      Except.error AveryError.concurrency ∧
    updateJob true "j" 5 (fun e => { e with status := CANCELLED }) [sampleIdle] =
      (Except.error AveryError.retriable, [sampleIdle]) ∧
    (updateJob false "j" 5 (fun e => { e with status := CANCELLED }) [sampleIdle]).2 =
      [sampleIdle] := by
  have h := c2_update_failure_contract "j" 5 (fun e => { e with status := CANCELLED }) [sampleIdle]
  have hstal : ¬ ∃ d ∈ [sampleIdle], d.job_id = "j" ∧ d.version = 5 := by decide
  exact ⟨h.1.mpr hstal, h.2.1, h.2.2 hstal⟩

end Avery

namespace Avery

/-! ### Lifecycle API claims: creation, deletion, retrieval -/

/-- C7: `create_job` inserts a record with `version = 0` and `status = IDLE`;
when a record with that `job_id` already exists the call succeeds silently as a
no-op, so two calls with the same `job_id` (even with different tag/args the
second time) leave exactly one record, the one from the first successful
insert; a transient store fault raises `RetriableError`, a duplicate key does
not. -/
theorem c7_create_idempotent (jid tag tag' : String)
    (args args' : Option (List (String × String))) (s : List JobDoc) :
    ((∀ d ∈ s, d.job_id ≠ jid) →
       create_job false jid tag args s = (Except.ok (), s ++ [newJobDoc jid tag args]) ∧
       (newJobDoc jid tag args).version = 0 ∧ (newJobDoc jid tag args).status = IDLE) ∧
    ((∃ d ∈ s, d.job_id = jid) → create_job false jid tag args s = (Except.ok (), s)) ∧
    (create_job true jid tag args s).1 = Except.error AveryError.retriable ∧
    ((∀ d ∈ s, d.job_id ≠ jid) →
       (create_job false jid tag' args' ((create_job false jid tag args s).2)).2 =
         s ++ [newJobDoc jid tag args] ∧
       ((s ++ [newJobDoc jid tag args]).filter (fun d => d.job_id == jid)).length = 1) := by
  have hfreshrun : (∀ d ∈ s, d.job_id ≠ jid) →
      create_job false jid tag args s = (Except.ok (), s ++ [newJobDoc jid tag args]) := by
    intro hfresh
    have hany : (s.any (fun d => d.job_id == jid)) = false := by
      rw [List.any_eq_false]
      intro d hd
      simp [hfresh d hd]
    simp [create_job, insertOne, newJobDoc, hany]
  refine ⟨fun hfresh => ⟨hfreshrun hfresh, rfl, rfl⟩, ?_, by simp [create_job], ?_⟩
  · rintro ⟨d, hd, hid⟩
    have hany : (s.any (fun d => d.job_id == jid)) = true := by
      rw [List.any_eq_true]
      exact ⟨d, hd, by simp [hid]⟩
    simp [create_job, insertOne, newJobDoc, hany]
  · intro hfresh
    rw [hfreshrun hfresh]
    have hany2 : ((s ++ [newJobDoc jid tag args]).any (fun d => d.job_id == jid)) = true := by
      rw [List.any_eq_true]
      exact ⟨newJobDoc jid tag args,
        List.mem_append_right s (List.mem_singleton.mpr rfl), by simp [newJobDoc]⟩
    constructor
    · simp [create_job, insertOne, newJobDoc, hany2]
    · rw [List.filter_append]
      have h1 : s.filter (fun d => d.job_id == jid) = [] := by
        rw [List.filter_eq_nil_iff]
        intro d hd
        simp [hfresh d hd]
      have h2 : [newJobDoc jid tag args].filter (fun d => d.job_id == jid) =
          [newJobDoc jid tag args] := by
        simp [List.filter, newJobDoc]
      rw [h1, h2]
      rfl

/-- Witness for `c7_create_idempotent`: a fresh insert into the empty store,
followed by a second `create_job` with the same `job_id` but a different tag,
leaves exactly the single record of the first insert; and a duplicate insert
into `[sampleIdle]` is a silent no-op. -/
theorem c7_witness :
    (create_job false "j" "t" none [] = (Except.ok (), [] ++ [newJobDoc "j" "t" none]) ∧
       (newJobDoc "j" "t" none).version = 0 ∧ (newJobDoc "j" "t" none).status = IDLE) ∧
    ((create_job false "j" "t2" (some [("k", "v")])
        ((create_job false "j" "t" none []).2)).2 = [] ++ [newJobDoc "j" "t" none] ∧
      (([] ++ [newJobDoc "j" "t" none]).filter (fun d : JobDoc => d.job_id == "j")).length = 1) ∧
    create_job false "j" "u" none [sampleIdle] = (Except.ok (), [sampleIdle]) ∧
    (create_job true "j" "t" none []).1 = Except.error AveryError.retriable := by
  have h1 := c7_create_idempotent "j" "t" "t2" none (some [("k", "v")]) []
  have h2 := c7_create_idempotent "j" "u" "u" none none [sampleIdle]
  exact ⟨h1.1 (by decide), h1.2.2.2 (by decide), h2.2.1 ⟨sampleIdle, by decide, by decide⟩,
    h1.2.2.1⟩

/-- C8: `delete_job` succeeds exactly when a record matches both `job_id` and
`version`, in which case exactly one record (the matching one) is removed;
zero matches raise `ConcurrencyError` and leave the store unchanged; a
transient store fault raises `RetriableError`. -/
theorem c8_delete_contract (jid : String) (v : Nat) (s : List JobDoc) :
    ((delete_job false jid v s).1 = Except.ok () ↔
       ∃ d ∈ s, d.job_id = jid ∧ d.version = v) ∧
    ((delete_job false jid v s).1 = Except.error AveryError.concurrency ↔
       ¬ ∃ d ∈ s, d.job_id = jid ∧ d.version = v) ∧
    delete_job true jid v s = (Except.error AveryError.retriable, s) ∧
    ((∃ d ∈ s, d.job_id = jid ∧ d.version = v) →
       ∃ l1 d l2, s = l1 ++ d :: l2 ∧ d.job_id = jid ∧ d.version = v ∧
         delete_job false jid v s = (Except.ok (), l1 ++ l2) ∧
         (l1 ++ l2).length + 1 = s.length) ∧
    ((¬ ∃ d ∈ s, d.job_id = jid ∧ d.version = v) →
       delete_job false jid v s = (Except.error AveryError.concurrency, s)) := by
  rcases deleteOne_cases (fun d => d.job_id == jid && d.version == v) s with
    ⟨heq, hall⟩ | ⟨l1, d, l2, hs, hl1, hqd, heq⟩
  · have hno : ¬ ∃ d ∈ s, d.job_id = jid ∧ d.version = v := by
      rintro ⟨d, hd, h1, h2⟩
      have := hall d hd
      simp [h1, h2] at this
    have hrun : delete_job false jid v s = (Except.error AveryError.concurrency, s) := by
      simp [delete_job, heq]
    refine ⟨⟨fun h => ?_, fun h => absurd h hno⟩, ⟨fun _ => hno, fun _ => by rw [hrun]⟩,
      by simp [delete_job], fun h => absurd h hno, fun _ => hrun⟩
    rw [hrun] at h
    exact Except.noConfusion h
  · have hqd' : d.job_id = jid ∧ d.version = v := by simpa using hqd
    have hmem : d ∈ s := hs ▸ List.mem_append_right l1 (List.mem_cons_self d l2)
    have hex : ∃ e ∈ s, e.job_id = jid ∧ e.version = v := ⟨d, hmem, hqd'⟩
    have hrun : delete_job false jid v s = (Except.ok (), l1 ++ l2) := by
      simp [delete_job, heq]
    have hlen : (l1 ++ l2).length + 1 = s.length := by
      rw [hs]
      simp [List.length_append]
      omega
    have hpart4 : ∃ l1' d' l2', s = l1' ++ d' :: l2' ∧ d'.job_id = jid ∧ d'.version = v ∧
        delete_job false jid v s = (Except.ok (), l1' ++ l2') ∧
        (l1' ++ l2').length + 1 = s.length :=
      ⟨l1, d, l2, hs, hqd'.1, hqd'.2, hrun, hlen⟩
    refine ⟨⟨fun _ => hex, fun _ => by rw [hrun]⟩, ⟨fun h => ?_, fun h => absurd hex h⟩,
      by simp [delete_job], fun _ => hpart4, fun h => absurd hex h⟩
    rw [hrun] at h
    exact Except.noConfusion h

/-- Witness for `c8_delete_contract`: deleting `("j", 0)` from `[sampleIdle]`
removes exactly that record; deleting at the stale version 5 raises
`ConcurrencyError` and leaves the store unchanged; with a transient fault the
call raises `RetriableError`. -/
theorem c8_witness :
    (delete_job false "j" 0 [sampleIdle]).1 = Except.ok () ∧
    delete_job false "j" 5 [sampleIdle] = (Except.error AveryError.concurrency, [sampleIdle]) ∧
    delete_job true "j" 0 [sampleIdle] = (Except.error AveryError.retriable, [sampleIdle]) := by
  have h0 := c8_delete_contract "j" 0 [sampleIdle]
  have h5 := c8_delete_contract "j" 5 [sampleIdle]
  exact ⟨h0.1.mpr ⟨sampleIdle, by decide, by decide⟩, h5.2.2.2.2 (by decide), h0.2.2.1⟩

/-- Helper: under the unique `job_id` index, `find_one` on `job_id` returns
the (unique) record carrying that id. -/
theorem find?_job_id_unique (jid : String) (s : List JobDoc) (d : JobDoc)
    (hU : (s.map JobDoc.job_id).Nodup) (hd : d ∈ s) (hid : d.job_id = jid) :
    s.find? (fun e => e.job_id == jid) = some d := by
  induction s with
  | nil => exact absurd hd (List.not_mem_nil d)
  | cons x xs ih =>
    rw [List.map_cons, List.nodup_cons] at hU
    rcases List.mem_cons.mp hd with rfl | hd
    · exact List.find?_cons_of_pos _ (by simp [hid])
    · have hx : (x.job_id == jid) = false := by
        simp only [beq_eq_false_iff_ne, ne_eq]
        intro hxe
        exact hU.1 (by
          rw [hxe, ← hid]
          exact List.mem_map_of_mem JobDoc.job_id hd)
      rw [List.find?_cons_of_neg _ (by simp [hx])]
      exact ih hU.2 hd

/-- C9: `get_job` returns the stored record when one with that `job_id`
exists (uniqueness of `job_id` provided by the store's unique index), raises
`RetriableError` on a transient store fault, and when no record exists it
raises an error (the `AttributeError` from `None.pop` in `_job_from_doc`)
rather than returning a job record. -/
theorem c9_get_job_contract (jid : String) (s : List JobDoc) :
    (∀ d ∈ s, d.job_id = jid → (s.map JobDoc.job_id).Nodup →
       get_job false jid s = Except.ok d) ∧
    get_job true jid s = Except.error AveryError.retriable ∧
    ((∀ d ∈ s, d.job_id ≠ jid) → get_job false jid s = Except.error AveryError.attrError) := by
  refine ⟨?_, by simp [get_job], ?_⟩
  · intro d hd hid hU
    have hf := find?_job_id_unique jid s d hU hd hid
    simp [get_job, hf, job_from_doc]
  · intro h
    have hf : s.find? (fun e => e.job_id == jid) = none :=
      List.find?_eq_none.mpr (fun x hx => by simp [h x hx])
    simp [get_job, hf, job_from_doc]

/-- Witness for `c9_get_job_contract`: on the store `[sampleIdle]`, `get_job`
returns the record for `"j"`, raises `RetriableError` under a transient fault,
and raises the not-found error for the absent id `"nope"`. -/
theorem c9_witness :
    get_job false "j" [sampleIdle] = Except.ok sampleIdle ∧
    get_job true "j" [sampleIdle] = Except.error AveryError.retriable ∧
    get_job false "nope" [sampleIdle] = Except.error AveryError.attrError := by
  have h1 := c9_get_job_contract "j" [sampleIdle]
  have h2 := c9_get_job_contract "nope" [sampleIdle]
  exact ⟨h1.1 sampleIdle (by decide) (by decide) (by decide), h1.2.1, h2.2.2 (by decide)⟩

end Avery

namespace Avery

/-! ### Acquisition protocol: phase queries and phase case analyses -/

theorem idleQuery_eq_true (tags : List String) (d : JobDoc) :
    idleQuery tags d = true ↔ d.tag ∈ tags ∧ d.status = IDLE := by
  simp [idleQuery]

theorem idleQuery_eq_false (tags : List String) (d : JobDoc) :
    idleQuery tags d = false ↔ ¬(d.tag ∈ tags ∧ d.status = IDLE) := by
  rw [← idleQuery_eq_true tags d]
  simp

theorem staleQuery_eq_true (tags : List String) (nowQ : Int) (d : JobDoc) :
    staleQuery tags nowQ d = true ↔ d.tag ∈ tags ∧ d.status = LOCKED ∧
      ∃ hb, d.worker_heartbeat = some hb ∧ hb < nowQ - HEARTBEAT_TIMEOUT := by
  cases hw : d.worker_heartbeat <;> simp [staleQuery, hw, and_assoc]

theorem staleQuery_eq_false (tags : List String) (nowQ : Int) (d : JobDoc) :
    staleQuery tags nowQ d = false ↔ ¬(d.tag ∈ tags ∧ d.status = LOCKED ∧
      ∃ hb, d.worker_heartbeat = some hb ∧ hb < nowQ - HEARTBEAT_TIMEOUT) := by
  rw [← staleQuery_eq_true tags nowQ d]
  simp

theorem try_idle_cases (now : Int) (tags : List String) (w : String) (s : List JobDoc) :
    (try_acquire_idle_job false now tags w s = (Except.ok none, s) ∧
       ∀ d ∈ s, idleQuery tags d = false) ∨
    (∃ l1 pre l2, s = l1 ++ pre :: l2 ∧ (∀ e ∈ l1, idleQuery tags e = false) ∧
       idleQuery tags pre = true ∧
       try_acquire_idle_job false now tags w s =
         (Except.ok (some (acquireUpdate w now pre)),
           l1 ++ acquireUpdate w now pre :: l2)) := by
  rcases findOneAndUpdate_cases (idleQuery tags) (acquireUpdate w now) s with
    ⟨heq, hall⟩ | ⟨l1, pre, l2, hs, hl1, hqp, heq⟩
  · exact Or.inl ⟨by simp [try_acquire_idle_job, worker_update, heq], hall⟩
  · exact Or.inr ⟨l1, pre, l2, hs, hl1, hqp,
      by simp [try_acquire_idle_job, worker_update, heq]⟩

theorem try_reclaim_cases (nowQ nowS : Int) (tags : List String) (w : String)
    (s : List JobDoc) :
    (try_reacquire_locked_job false nowQ nowS tags w s = (Except.ok none, s) ∧
       ∀ d ∈ s, staleQuery tags nowQ d = false) ∨
    (∃ l1 pre l2, s = l1 ++ pre :: l2 ∧ (∀ e ∈ l1, staleQuery tags nowQ e = false) ∧
       staleQuery tags nowQ pre = true ∧
       try_reacquire_locked_job false nowQ nowS tags w s =
         (Except.ok (some (acquireUpdate w nowS pre)),
           l1 ++ acquireUpdate w nowS pre :: l2)) := by
  rcases findOneAndUpdate_cases (staleQuery tags nowQ) (acquireUpdate w nowS) s with
    ⟨heq, hall⟩ | ⟨l1, pre, l2, hs, hl1, hqp, heq⟩
  · exact Or.inl ⟨by simp [try_reacquire_locked_job, worker_update, heq], hall⟩
  · exact Or.inr ⟨l1, pre, l2, hs, hl1, hqp,
      by simp [try_reacquire_locked_job, worker_update, heq]⟩

/-- C3: `acquire_job` is a two-phase ordered protocol.  When the idle phase
finds a record (necessarily one with `tag` in the requested set and
`status = IDLE`, transitioned to `LOCKED` with this `worker_id`, heartbeat
`now` and version incremented), `acquire_job` returns exactly that result and
the reclaim phase does not run; when the idle phase finds nothing,
`acquire_job` is the reclaim phase run on the unchanged store; when neither
phase finds a record, `acquire_job` returns the non-error result `none`
("no job available") and leaves the store unchanged. -/
theorem c3_acquire_two_phase (t1 t2 t3 : Int) (tags : List String) (w : String)
    (s : List JobDoc) :
    (∀ j s1, try_acquire_idle_job false t1 tags w s = (Except.ok (some j), s1) →
       acquire_job false false t1 t2 t3 tags w s = (Except.ok (some j), s1) ∧
       ∃ pre ∈ s, pre.tag ∈ tags ∧ pre.status = IDLE ∧ j = acquireUpdate w t1 pre ∧
         j.status = LOCKED ∧ j.worker_id = some w ∧ j.worker_heartbeat = some t1 ∧
         j.version = pre.version + 1) ∧
    ((try_acquire_idle_job false t1 tags w s).1 = Except.ok none →
       acquire_job false false t1 t2 t3 tags w s =
         try_reacquire_locked_job false t2 t3 tags w s) ∧
    ((try_acquire_idle_job false t1 tags w s).1 = Except.ok none →
     (try_reacquire_locked_job false t2 t3 tags w s).1 = Except.ok none →
       acquire_job false false t1 t2 t3 tags w s = (Except.ok none, s)) := by
  have hskip : (try_acquire_idle_job false t1 tags w s).1 = Except.ok none →
      acquire_job false false t1 t2 t3 tags w s =
        try_reacquire_locked_job false t2 t3 tags w s := by
    intro h
    rcases try_idle_cases t1 tags w s with ⟨heq, _⟩ | ⟨l1, pre, l2, _, _, _, heq⟩
    · simp [acquire_job, heq]
    · rw [heq] at h
      simp at h
  refine ⟨?_, hskip, ?_⟩
  · intro j s1 h
    rcases try_idle_cases t1 tags w s with ⟨heq, _⟩ | ⟨l1, pre, l2, hs, _, hqp, heq⟩
    · rw [heq] at h
      have := congrArg Prod.fst h
      simp at this
    · rw [heq] at h
      have h1 := congrArg Prod.fst h
      have h2 := congrArg Prod.snd h
      simp at h1 h2
      rcases idleQuery_eq_true tags pre |>.mp hqp with ⟨htag, hst⟩
      refine ⟨by rw [← h1, ← h2]; simp [acquire_job, heq], pre,
        hs ▸ List.mem_append_right l1 (List.mem_cons_self pre l2), htag, hst,
        h1 ▸ rfl, ?_, ?_, ?_, ?_⟩ <;> rw [← h1] <;> rfl
  · intro h1 h2
    rw [hskip h1]
    rcases try_reclaim_cases t2 t3 tags w s with ⟨heq, _⟩ | ⟨l1, pre, l2, _, _, _, heq⟩
    · exact heq
    · rw [heq] at h2
      simp at h2

/-- Witness for `c3_acquire_two_phase`: acquiring on the one-job store
`[sampleIdle]` with a matching tag claims the job in the idle phase, and on a
store whose only record is cancelled both phases find nothing and the call
returns the non-error `none`. -/
theorem c3_witness :
    (acquire_job false false 7 8 9 ["t"] "w1" [sampleIdle] =
       (Except.ok (some (acquireUpdate "w1" 7 sampleIdle)),
         [acquireUpdate "w1" 7 sampleIdle]) ∧
     ∃ pre ∈ [sampleIdle], pre.tag ∈ ["t"] ∧ pre.status = IDLE ∧
       acquireUpdate "w1" 7 sampleIdle = acquireUpdate "w1" 7 pre ∧
       (acquireUpdate "w1" 7 sampleIdle).status = LOCKED ∧
       (acquireUpdate "w1" 7 sampleIdle).worker_id = some "w1" ∧
       (acquireUpdate "w1" 7 sampleIdle).worker_heartbeat = some 7 ∧
       (acquireUpdate "w1" 7 sampleIdle).version = pre.version + 1) ∧
    acquire_job false false 7 8 9 ["t"] "w1" [{ sampleIdle with status := CANCELLED }] =
      (Except.ok none, [{ sampleIdle with status := CANCELLED }]) := by
  have h1 := c3_acquire_two_phase 7 8 9 ["t"] "w1" [sampleIdle]
  have h2 := c3_acquire_two_phase 7 8 9 ["t"] "w1" [{ sampleIdle with status := CANCELLED }]
  exact ⟨h1.1 (acquireUpdate "w1" 7 sampleIdle) [acquireUpdate "w1" 7 sampleIdle] (by decide),
    h2.2.2 (by decide) (by decide)⟩

/-- C4: stale-lease reclaim selectivity.  Whenever the reclaim phase returns a
job, the selected stored record had a tag in the requested set, status
`LOCKED`, and a heartbeat strictly older than `nowQ - HEARTBEAT_TIMEOUT`
(10 minutes); hence a `LOCKED` job with a younger heartbeat is never returned.
On selection the record receives the new `worker_id`, the fresh heartbeat
`nowS`, and its version is incremented exactly once, in place. -/
theorem c4_reclaim_selectivity (nowQ nowS : Int) (tags : List String) (w : String)
    (s s1 : List JobDoc) (j : JobDoc)
    (hrun : try_reacquire_locked_job false nowQ nowS tags w s = (Except.ok (some j), s1)) :
    ∃ pre l1 l2, s = l1 ++ pre :: l2 ∧ pre.tag ∈ tags ∧ pre.status = LOCKED ∧
      (∃ hb, pre.worker_heartbeat = some hb ∧ hb < nowQ - HEARTBEAT_TIMEOUT) ∧
      j = acquireUpdate w nowS pre ∧ s1 = l1 ++ j :: l2 ∧
      j.worker_id = some w ∧ j.worker_heartbeat = some nowS ∧
      j.version = pre.version + 1 := by
  rcases try_reclaim_cases nowQ nowS tags w s with ⟨heq, _⟩ | ⟨l1, pre, l2, hs, _, hqp, heq⟩
  · rw [heq] at hrun
    have := congrArg Prod.fst hrun
    simp at this
  · rw [heq] at hrun
    have h1 := congrArg Prod.fst hrun
    have h2 := congrArg Prod.snd hrun
    simp at h1 h2
    rcases staleQuery_eq_true tags nowQ pre |>.mp hqp with ⟨htag, hst, hhb⟩
    exact ⟨pre, l1, l2, hs, htag, hst, hhb, h1.symm, by rw [← h2, h1],
      by rw [← h1]; rfl, by rw [← h1]; rfl, by rw [← h1]; rfl⟩

/-- A stale locked job: heartbeat 0, far older than the timeout relative to
query time 1000. -/
def staleLocked : JobDoc :=
  { job_id := "j", tag := "t", args := [], version := 1, status := LOCKED,
    worker_id := some "w1", worker_heartbeat := some 0 }

/-- Witness for `c4_reclaim_selectivity`: worker `"w2"` reclaims `staleLocked`
at query time 1000 (heartbeat 0 is older than 1000 - 600). -/
theorem c4_witness :
    ∃ pre l1 l2, [staleLocked] = l1 ++ pre :: l2 ∧ pre.tag ∈ ["t"] ∧
      pre.status = LOCKED ∧
      (∃ hb, pre.worker_heartbeat = some hb ∧ hb < 1000 - HEARTBEAT_TIMEOUT) ∧
      acquireUpdate "w2" 1001 staleLocked = acquireUpdate "w2" 1001 pre ∧
      [acquireUpdate "w2" 1001 staleLocked] =
        l1 ++ acquireUpdate "w2" 1001 staleLocked :: l2 ∧
      (acquireUpdate "w2" 1001 staleLocked).worker_id = some "w2" ∧
      (acquireUpdate "w2" 1001 staleLocked).worker_heartbeat = some 1001 ∧
      (acquireUpdate "w2" 1001 staleLocked).version = pre.version + 1 :=
  c4_reclaim_selectivity 1000 1001 ["t"] "w2" [staleLocked]
    [acquireUpdate "w2" 1001 staleLocked] (acquireUpdate "w2" 1001 staleLocked) (by decide)

end Avery

namespace Avery

/-- C6, counterexample: `finalize_job` does not validate the terminal status
(the spec itself notes any caller-supplied string is accepted), so a worker
can finalize a job with the status constant `IDLE`.  The resulting record —
whose status was set by `finalize_job` — is then selected again by the
idle-claim phase of acquisition, so a status set by `finalize_job` is not in
general a sink state. -/
theorem c6_counterexample :
    (finalize_job false "j" 1 IDLE none [staleLocked]).2 =
      [{ staleLocked with status := IDLE, worker_exception := none, version := 2 }] ∧
    (try_acquire_idle_job false 5 ["t"] "w2"
        (finalize_job false "j" 1 IDLE none [staleLocked]).2).1 =
      Except.ok (some (acquireUpdate "w2" 5
        { staleLocked with status := IDLE, worker_exception := none, version := 2 })) := by
  exact ⟨by decide, by decide⟩

/-- C6 (amended): a job whose status is `CANCELLED` — or any
`finalize_job`-supplied status other than the `IDLE` and `LOCKED` constants —
is never selected by the idle-claim phase nor by the stale-lease reclaim phase
of acquisition (any job the call returns stems from a record whose prior
status was `IDLE` or `LOCKED`), and the record persists unchanged in the store
until explicitly deleted. -/
theorem c6_sink_states (t1 t2 t3 : Int) (tags : List String) (w : String)
    (s : List JobDoc) (d : JobDoc) (hd : d ∈ s)
    (hni : d.status ≠ IDLE) (hnl : d.status ≠ LOCKED) :
    (∀ j, (acquire_job false false t1 t2 t3 tags w s).1 = Except.ok (some j) →
       ∃ pre ∈ s, pre ≠ d ∧ (pre.status = IDLE ∨ pre.status = LOCKED) ∧
         (j = acquireUpdate w t1 pre ∨ j = acquireUpdate w t3 pre)) ∧
    d ∈ (acquire_job false false t1 t2 t3 tags w s).2 := by
  have hdi : idleQuery tags d = false :=
    (idleQuery_eq_false tags d).mpr (fun h => hni h.2)
  have hds : staleQuery tags t2 d = false :=
    (staleQuery_eq_false tags t2 d).mpr (fun h => hnl h.2.1)
  rcases try_idle_cases t1 tags w s with ⟨heq, _⟩ | ⟨l1, pre, l2, hs, _, hqp, heq⟩
  · have hacq : acquire_job false false t1 t2 t3 tags w s =
        try_reacquire_locked_job false t2 t3 tags w s := by
      simp [acquire_job, heq]
    rcases try_reclaim_cases t2 t3 tags w s with ⟨heq2, _⟩ | ⟨m1, pre2, m2, hs2, _, hqp2, heq2⟩
    · constructor
      · intro j hj
        rw [hacq, heq2] at hj
        simp at hj
      · rw [hacq, heq2]
        exact hd
    · rcases staleQuery_eq_true tags t2 pre2 |>.mp hqp2 with ⟨_, hst2, _⟩
      constructor
      · intro j hj
        rw [hacq, heq2] at hj
        simp at hj
        exact ⟨pre2, hs2 ▸ List.mem_append_right m1 (List.mem_cons_self pre2 m2),
          fun hed => hnl (hed ▸ hst2), Or.inr hst2, Or.inr hj.symm⟩
      · rw [hacq]
        have : d ∈ (findOneAndUpdate (staleQuery tags t2) (acquireUpdate w t3) s).2 :=
          findOneAndUpdate_mem_of_not_matching _ _ s d hd hds
        simpa [try_reacquire_locked_job, worker_update] using this
  · rcases idleQuery_eq_true tags pre |>.mp hqp with ⟨_, hst⟩
    have hacq : acquire_job false false t1 t2 t3 tags w s =
        (Except.ok (some (acquireUpdate w t1 pre)), l1 ++ acquireUpdate w t1 pre :: l2) := by
      simp [acquire_job, heq]
    constructor
    · intro j hj
      rw [hacq] at hj
      simp at hj
      exact ⟨pre, hs ▸ List.mem_append_right l1 (List.mem_cons_self pre l2),
        fun hed => hni (hed ▸ hst), Or.inl hst, Or.inl hj.symm⟩
    · rw [hacq]
      have hmem : d ∈ (findOneAndUpdate (idleQuery tags) (acquireUpdate w t1) s).2 :=
        findOneAndUpdate_mem_of_not_matching _ _ s d hd hdi
      have hsnd : (findOneAndUpdate (idleQuery tags) (acquireUpdate w t1) s).2 =
          l1 ++ acquireUpdate w t1 pre :: l2 := by
        have := congrArg Prod.snd heq
        simpa [try_acquire_idle_job, worker_update] using this
      exact hsnd ▸ hmem

/-- A cancelled job on a store that also holds an idle job with the same
tag: used to witness `c6_sink_states`. -/
def cancelledDoc : JobDoc :=
  { job_id := "c", tag := "t", args := [], version := 3, status := CANCELLED,
    worker_id := some "w0", worker_heartbeat := some 0 }

/-- Witness for `c6_sink_states`: on the store `[cancelledDoc, sampleIdle]`,
any job returned by acquisition stems from a record other than the cancelled
one, and the cancelled record persists in the post-acquisition store. -/
theorem c6_witness :
    (∀ j, (acquire_job false false 7 8 9 ["t"] "w1" [cancelledDoc, sampleIdle]).1 =
        Except.ok (some j) →
       ∃ pre ∈ [cancelledDoc, sampleIdle], pre ≠ cancelledDoc ∧
         (pre.status = IDLE ∨ pre.status = LOCKED) ∧
         (j = acquireUpdate "w1" 7 pre ∨ j = acquireUpdate "w1" 9 pre)) ∧
    cancelledDoc ∈ (acquire_job false false 7 8 9 ["t"] "w1" [cancelledDoc, sampleIdle]).2 :=
  c6_sink_states 7 8 9 ["t"] "w1" [cancelledDoc, sampleIdle] cancelledDoc
    (by decide) (by decide) (by decide)

end Avery

namespace Avery

/-! ### Version counting across successful mutations (claim C5) -/

/-- One fault-free call of a mutating controller operation (the five mutation
kinds named by the spec, plus creation and deletion which bracket a record's
life). -/
inductive AveryOp where
  | create (job_id tag : String) (args : Option (List (String × String)))
  | cancel (job_id : String) (version : Nat)
  | heartbeat (now : Int) (job_id : String) (version : Nat)
  | finalize (job_id : String) (version : Nat) (status : String) (wexc : Option String)
  | delete (job_id : String) (version : Nat)
  | acquire (tIdle nowQ nowS : Int) (tags : List String) (worker_id : String)

/-- The store after running one operation (fault-free). -/
def runStore : AveryOp → List JobDoc → List JobDoc
  | AveryOp.create j t a, s => (create_job false j t a s).2
  | AveryOp.cancel j v, s => (cancel_job false j v s).2
  | AveryOp.heartbeat n j v, s => (heartbeat_job false n j v s).2
  | AveryOp.finalize j v st w, s => (finalize_job false j v st w s).2
  | AveryOp.delete j v, s => (delete_job false j v s).2
  | AveryOp.acquire t1 t2 t3 tg w, s => (acquire_job false false t1 t2 t3 tg w s).2

def runStores : List AveryOp → List JobDoc → List JobDoc
  | [], s => s
  | op :: ops, s => runStores ops (runStore op s)

/-- The version of the record with id `x`, when present. -/
def versionOf (x : String) (s : List JobDoc) : Option Nat :=
  (s.find? (fun d => d.job_id == x)).map JobDoc.version

def presentIn (x : String) (s : List JobDoc) : Bool :=
  s.any (fun d => d.job_id == x)

/-- A record matching `(job_id, version)` exists — the success condition of
the conditional update. -/
def matchesKV (jid : String) (v : Nat) (s : List JobDoc) : Bool :=
  s.any (fun d => d.job_id == jid && d.version == v)

/-- Whether running `op` on `s` successfully mutates the record with id `x`:
a conditional update that matches `(x, version)`, or an acquisition whose
returned job is the record `x`.  Creation and deletion are not mutations of an
existing record. -/
def opMutates (x : String) : AveryOp → List JobDoc → Bool
  | AveryOp.create _ _ _, _ => false
  | AveryOp.cancel j v, s => x == j && matchesKV j v s
  | AveryOp.heartbeat _ j v, s => x == j && matchesKV j v s
  | AveryOp.finalize j v _ _, s => x == j && matchesKV j v s
  | AveryOp.delete _ _, _ => false
  | AveryOp.acquire t1 t2 t3 tg w, s =>
      match (acquire_job false false t1 t2 t3 tg w s).1 with
      | Except.ok (some j) => j.job_id == x
      | _ => false

/-- Number of successful mutations hitting record `x` along a run. -/
def countMutations (x : String) : List AveryOp → List JobDoc → Nat
  | [], _ => 0
  | op :: ops, s =>
      (if opMutates x op s then 1 else 0) + countMutations x ops (runStore op s)

/-- Record `x` exists in the store at every point of the run (it is neither
deleted nor absent). -/
def presentThrough (x : String) : List AveryOp → List JobDoc → Bool
  | [], s => presentIn x s
  | op :: ops, s => presentIn x s && presentThrough x ops (runStore op s)

/-- The unique `job_id` index invariant of the store. -/
def UniqueKeys (s : List JobDoc) : Prop := (s.map JobDoc.job_id).Nodup

theorem matchesKV_eq_true (jid : String) (v : Nat) (s : List JobDoc) :
    matchesKV jid v s = true ↔ ∃ d ∈ s, d.job_id = jid ∧ d.version = v := by
  simp [matchesKV]

/-! ### `find?` and `versionOf` over decomposed stores -/

theorem find?_append_key_absent (x : String) (l1 rest : List JobDoc)
    (h : ∀ e ∈ l1, e.job_id ≠ x) :
    (l1 ++ rest).find? (fun d => d.job_id == x) =
      rest.find? (fun d => d.job_id == x) := by
  induction l1 with
  | nil => rfl
  | cons a l ih =>
    rw [List.cons_append, List.find?_cons_of_neg _ (by simp [h a (List.mem_cons_self a l)])]
    exact ih (fun e he => h e (List.mem_cons_of_mem a he))

theorem find?_replace_ne (x : String) (l1 l2 : List JobDoc) (pre new : JobDoc)
    (hid : new.job_id = pre.job_id) (hne : pre.job_id ≠ x) :
    (l1 ++ new :: l2).find? (fun d => d.job_id == x) =
      (l1 ++ pre :: l2).find? (fun d => d.job_id == x) := by
  induction l1 with
  | nil =>
    simp only [List.nil_append]
    rw [List.find?_cons_of_neg _ (by simp [hid, hne]),
      List.find?_cons_of_neg _ (by simp [hne])]
  | cons a l ih =>
    cases ha : (a.job_id == x)
    · simp only [List.cons_append]
      rw [List.find?_cons_of_neg _ (by simp [ha]), List.find?_cons_of_neg _ (by simp [ha])]
      exact ih
    · simp only [List.cons_append, List.find?_cons, ha]

theorem find?_remove_ne (x : String) (l1 l2 : List JobDoc) (pre : JobDoc)
    (hne : pre.job_id ≠ x) :
    (l1 ++ l2).find? (fun d => d.job_id == x) =
      (l1 ++ pre :: l2).find? (fun d => d.job_id == x) := by
  induction l1 with
  | nil =>
    simp only [List.nil_append]
    rw [List.find?_cons_of_neg _ (by simp [hne])]
  | cons a l ih =>
    cases ha : (a.job_id == x)
    · simp only [List.cons_append]
      rw [List.find?_cons_of_neg _ (by simp [ha]), List.find?_cons_of_neg _ (by simp [ha])]
      exact ih
    · simp only [List.cons_append, List.find?_cons, ha]

theorem uniqueKeys_l1_ne (x : String) (l1 l2 : List JobDoc) (pre : JobDoc)
    (hx : pre.job_id = x) (hU : UniqueKeys (l1 ++ pre :: l2)) :
    ∀ e ∈ l1, e.job_id ≠ x := by
  intro e he hex
  rw [UniqueKeys, List.map_append, List.nodup_append] at hU
  have h1 : e.job_id ∈ l1.map JobDoc.job_id := List.mem_map_of_mem JobDoc.job_id he
  have h2 : e.job_id ∈ ((pre :: l2).map JobDoc.job_id) := by
    rw [List.map_cons, hex, ← hx]
    exact List.mem_cons_self _ _
  exact hU.2.2 h1 h2

theorem uniqueKeys_l2_ne (x : String) (l1 l2 : List JobDoc) (pre : JobDoc)
    (hx : pre.job_id = x) (hU : UniqueKeys (l1 ++ pre :: l2)) :
    ∀ e ∈ l2, e.job_id ≠ x := by
  intro e he hex
  rw [UniqueKeys, List.map_append, List.nodup_append, List.map_cons,
    List.nodup_cons] at hU
  exact hU.2.1.1 (by
    rw [hx, ← hex]
    exact List.mem_map_of_mem JobDoc.job_id he)

theorem versionOf_replace (x : String) (l1 l2 : List JobDoc) (pre new : JobDoc)
    (hid : new.job_id = pre.job_id) (hU : UniqueKeys (l1 ++ pre :: l2)) :
    (pre.job_id = x →
       versionOf x (l1 ++ pre :: l2) = some pre.version ∧
       versionOf x (l1 ++ new :: l2) = some new.version) ∧
    (pre.job_id ≠ x →
       versionOf x (l1 ++ new :: l2) = versionOf x (l1 ++ pre :: l2)) := by
  constructor
  · intro hx
    have habs := uniqueKeys_l1_ne x l1 l2 pre hx hU
    constructor
    · rw [versionOf, find?_append_key_absent x l1 _ habs,
        List.find?_cons_of_pos _ (by simp [hx])]
      rfl
    · rw [versionOf, find?_append_key_absent x l1 _ habs,
        List.find?_cons_of_pos _ (by simp [hid, hx])]
      rfl
  · intro hx
    rw [versionOf, versionOf, find?_replace_ne x l1 l2 pre new hid hx]

theorem versionOf_remove (x : String) (l1 l2 : List JobDoc) (pre : JobDoc)
    (hU : UniqueKeys (l1 ++ pre :: l2)) :
    (pre.job_id = x → versionOf x (l1 ++ l2) = none) ∧
    (pre.job_id ≠ x →
       versionOf x (l1 ++ l2) = versionOf x (l1 ++ pre :: l2)) := by
  constructor
  · intro hx
    have h1 := uniqueKeys_l1_ne x l1 l2 pre hx hU
    have h2 := uniqueKeys_l2_ne x l1 l2 pre hx hU
    have : (l1 ++ l2).find? (fun d => d.job_id == x) = none := by
      rw [List.find?_eq_none]
      intro e he
      rcases List.mem_append.mp he with he | he
      · simp [h1 e he]
      · simp [h2 e he]
    rw [versionOf, this]
    rfl
  · intro hx
    rw [versionOf, versionOf, find?_remove_ne x l1 l2 pre hx]

theorem find?_append_left (p : JobDoc → Bool) (s t : List JobDoc) (d : JobDoc)
    (h : s.find? p = some d) : (s ++ t).find? p = some d := by
  induction s with
  | nil => exact absurd h (by simp)
  | cons a l ih =>
    cases hp : p a
    · rw [List.find?_cons_of_neg _ (by simp [hp])] at h
      rw [List.cons_append, List.find?_cons_of_neg _ (by simp [hp])]
      exact ih h
    · rw [List.find?_cons_of_pos _ hp] at h
      rw [List.cons_append, List.find?_cons_of_pos _ hp]
      exact h

theorem versionOf_append_of_present (x : String) (s : List JobDoc) (doc : JobDoc)
    (hv : (versionOf x s).isSome) :
    versionOf x (s ++ [doc]) = versionOf x s := by
  rw [versionOf] at hv
  rcases Option.isSome_iff_exists.mp hv with ⟨v, hv⟩
  rcases Option.map_eq_some'.mp hv with ⟨d, hd, _⟩
  rw [versionOf, versionOf, find?_append_left _ s [doc] d hd, hd]

theorem presentIn_iff_versionOf (x : String) (s : List JobDoc) :
    presentIn x s = true ↔ (versionOf x s).isSome := by
  rw [presentIn, List.any_eq_true, versionOf, Option.isSome_map']
  rw [List.find?_isSome]

end Avery

namespace Avery

/-! ### Store shapes of the lifecycle operations -/

theorem create_job_store_fresh (j t : String) (a : Option (List (String × String)))
    (s : List JobDoc) (h : presentIn j s = false) :
    (create_job false j t a s).2 = s ++ [newJobDoc j t a] := by
  rw [presentIn] at h
  simp [create_job, insertOne, newJobDoc, h]

theorem create_job_store_dup (j t : String) (a : Option (List (String × String)))
    (s : List JobDoc) (h : presentIn j s = true) :
    (create_job false j t a s).2 = s := by
  rw [presentIn] at h
  simp [create_job, insertOne, newJobDoc, h]

/-! ### Preservation of the unique `job_id` index -/

theorem uniqueKeys_replace (l1 l2 : List JobDoc) (pre new : JobDoc)
    (hid : new.job_id = pre.job_id) (hU : UniqueKeys (l1 ++ pre :: l2)) :
    UniqueKeys (l1 ++ new :: l2) := by
  rw [UniqueKeys, List.map_append, List.map_cons, hid]
  rw [UniqueKeys, List.map_append, List.map_cons] at hU
  exact hU

theorem uniqueKeys_remove (l1 l2 : List JobDoc) (pre : JobDoc)
    (hU : UniqueKeys (l1 ++ pre :: l2)) : UniqueKeys (l1 ++ l2) := by
  have hsub : List.Sublist ((l1 ++ l2).map JobDoc.job_id)
      ((l1 ++ pre :: l2).map JobDoc.job_id) :=
    List.Sublist.map _ (List.Sublist.append_left (List.sublist_cons_self pre l2) l1)
  exact List.Nodup.sublist hsub hU

theorem uniqueKeys_append_fresh (s : List JobDoc) (doc : JobDoc)
    (h : presentIn doc.job_id s = false) (hU : UniqueKeys s) :
    UniqueKeys (s ++ [doc]) := by
  rw [UniqueKeys, List.map_append, List.nodup_append]
  refine ⟨hU, List.nodup_singleton _, ?_⟩
  intro a ha hb
  rw [presentIn, List.any_eq_false] at h
  rcases List.mem_map.mp ha with ⟨e, he, rfl⟩
  have hb' : e.job_id = doc.job_id := by simpa using hb
  exact absurd hb' (by simpa using h e he)

theorem uniqueKeys_updateJob (jid : String) (v : Nat) (f : JobDoc → JobDoc)
    (hf : ∀ d, (f d).job_id = d.job_id) (s : List JobDoc) (hU : UniqueKeys s) :
    UniqueKeys ((updateJob false jid v f s).2) := by
  by_cases hm : ∃ d ∈ s, d.job_id = jid ∧ d.version = v
  · rcases updateJob_of_match jid v f s hm with ⟨l1, d, l2, hs, _, _, _, heq⟩
    rw [heq]
    exact uniqueKeys_replace l1 l2 d _ (hf d) (hs ▸ hU)
  · rw [updateJob_of_no_match jid v f s (fun d hd hdm => hm ⟨d, hd, hdm⟩)]
    exact hU

theorem uniqueKeys_acquire (t1 t2 t3 : Int) (tg : List String) (w : String)
    (s : List JobDoc) (hU : UniqueKeys s) :
    UniqueKeys ((acquire_job false false t1 t2 t3 tg w s).2) := by
  rcases try_idle_cases t1 tg w s with ⟨heq, _⟩ | ⟨l1, pre, l2, hs, _, _, heq⟩
  · have hacq : acquire_job false false t1 t2 t3 tg w s =
        try_reacquire_locked_job false t2 t3 tg w s := by simp [acquire_job, heq]
    rw [hacq]
    rcases try_reclaim_cases t2 t3 tg w s with ⟨heq2, _⟩ | ⟨m1, p2, m2, hs2, _, _, heq2⟩
    · rw [heq2]
      exact hU
    · rw [heq2]
      exact uniqueKeys_replace m1 m2 p2 _ rfl (hs2 ▸ hU)
  · have hacq : acquire_job false false t1 t2 t3 tg w s =
        (Except.ok (some (acquireUpdate w t1 pre)), l1 ++ acquireUpdate w t1 pre :: l2) := by
      simp [acquire_job, heq]
    rw [hacq]
    exact uniqueKeys_replace l1 l2 pre _ rfl (hs ▸ hU)

theorem uniqueKeys_delete (jid : String) (v : Nat) (s : List JobDoc) (hU : UniqueKeys s) :
    UniqueKeys ((delete_job false jid v s).2) := by
  rcases deleteOne_cases (fun d => d.job_id == jid && d.version == v) s with
    ⟨heq, _⟩ | ⟨l1, d, l2, hs, _, _, heq⟩
  · rw [show delete_job false jid v s = (Except.error AveryError.concurrency, s) from
      by simp [delete_job, heq]]
    exact hU
  · rw [show delete_job false jid v s = (Except.ok (), l1 ++ l2) from
      by simp [delete_job, heq]]
    exact uniqueKeys_remove l1 l2 d (hs ▸ hU)

theorem uniqueKeys_runStore (op : AveryOp) (s : List JobDoc) (hU : UniqueKeys s) :
    UniqueKeys (runStore op s) := by
  cases op with
  | create j t a =>
    cases hp : presentIn j s
    · rw [runStore, create_job_store_fresh j t a s hp]
      exact uniqueKeys_append_fresh s _ (by simpa [newJobDoc] using hp) hU
    · rw [runStore, create_job_store_dup j t a s hp]
      exact hU
  | cancel j v =>
    exact uniqueKeys_updateJob j v (fun d => { d with status := CANCELLED })
      (fun d => rfl) s hU
  | heartbeat n j v =>
    exact uniqueKeys_updateJob j v (fun d => { d with worker_heartbeat := some n })
      (fun d => rfl) s hU
  | finalize j v st w =>
    exact uniqueKeys_updateJob j v (fun d => { d with status := st, worker_exception := w })
      (fun d => rfl) s hU
  | delete j v => exact uniqueKeys_delete j v s hU
  | acquire t1 t2 t3 tg w => exact uniqueKeys_acquire t1 t2 t3 tg w s hU

end Avery

namespace Avery

/-- One in-place conditional update whose new document has the same key and a
version one higher changes the tracked version of the updated key by exactly
one and leaves every other key's version unchanged. -/
theorem version_step_replace (x : String) (l1 l2 : List JobDoc) (pre new : JobDoc)
    (hid : new.job_id = pre.job_id) (hver : new.version = pre.version + 1)
    (hU : UniqueKeys (l1 ++ pre :: l2)) (vv vv' : Nat)
    (hv : versionOf x (l1 ++ pre :: l2) = some vv)
    (hv' : versionOf x (l1 ++ new :: l2) = some vv') :
    vv' = if pre.job_id = x then vv + 1 else vv := by
  have hrep := versionOf_replace x l1 l2 pre new hid hU
  by_cases hx : pre.job_id = x
  · rcases hrep.1 hx with ⟨hpre, hnew⟩
    rw [hpre] at hv
    rw [hnew] at hv'
    rw [if_pos hx]
    rw [← Option.some.inj hv, ← Option.some.inj hv', hver]
  · rw [hrep.2 hx] at hv'
    rw [hv] at hv'
    rw [if_neg hx]
    exact (Option.some.inj hv').symm

/-- Version accounting for `_update_job` with a key-preserving `$set`. -/
theorem version_step_update (x jid : String) (v : Nat) (f : JobDoc → JobDoc)
    (hf : ∀ d, (f d).job_id = d.job_id) (s : List JobDoc)
    (hU : UniqueKeys s) (vv vv' : Nat)
    (hv : versionOf x s = some vv)
    (hv' : versionOf x ((updateJob false jid v f s).2) = some vv') :
    vv' = if (x == jid && matchesKV jid v s) = true then vv + 1 else vv := by
  by_cases hm : ∃ d ∈ s, d.job_id = jid ∧ d.version = v
  · rcases updateJob_of_match jid v f s hm with ⟨l1, d, l2, hs, hid, hdv, _, heq⟩
    rw [heq] at hv'
    rw [hs] at hv hU
    have hstep := version_step_replace x l1 l2 d { f d with version := v + 1 }
      (hf d) (by simp [hdv]) hU vv vv' hv hv'
    by_cases hx : d.job_id = x
    · rw [if_pos hx] at hstep
      have hcond : (x == jid && matchesKV jid v s) = true := by
        simp only [Bool.and_eq_true]
        exact ⟨beq_iff_eq.mpr (hx.symm.trans hid), (matchesKV_eq_true jid v s).mpr hm⟩
      rw [hstep, if_pos hcond]
    · rw [if_neg hx] at hstep
      rw [hstep, if_neg]
      intro hc
      simp only [Bool.and_eq_true] at hc
      exact hx (hid.trans (beq_iff_eq.mp hc.1).symm)
  · rw [updateJob_of_no_match jid v f s (fun d hd hdm => hm ⟨d, hd, hdm⟩)] at hv'
    rw [hv] at hv'
    rw [if_neg]
    · exact (Option.some.inj hv').symm
    · intro hc
      simp only [Bool.and_eq_true] at hc
      exact hm ((matchesKV_eq_true jid v s).mp hc.2)

end Avery

namespace Avery

/-- Per-operation version accounting: one fault-free operation leaves a
record's version unchanged unless it successfully mutates that record, in
which case the version grows by exactly 1 (so it never decreases or resets
while the record exists). -/
theorem version_step (op : AveryOp) (s : List JobDoc) (x : String)
    (hU : UniqueKeys s) (v v' : Nat)
    (hv : versionOf x s = some v) (hv' : versionOf x (runStore op s) = some v') :
    v' = if opMutates x op s = true then v + 1 else v := by
  cases op with
  | cancel j vv =>
    exact version_step_update x j vv (fun d => { d with status := CANCELLED })
      (fun d => rfl) s hU v v' hv hv'
  | heartbeat n j vv =>
    exact version_step_update x j vv (fun d => { d with worker_heartbeat := some n })
      (fun d => rfl) s hU v v' hv hv'
  | finalize j vv st w =>
    exact version_step_update x j vv (fun d => { d with status := st, worker_exception := w })
      (fun d => rfl) s hU v v' hv hv'
  | create j t a =>
    rw [show opMutates x (AveryOp.create j t a) s = false from rfl,
      if_neg Bool.false_ne_true]
    cases hp : presentIn j s
    · rw [runStore, create_job_store_fresh j t a s hp,
        versionOf_append_of_present x s _ (by rw [hv]; rfl), hv] at hv'
      exact (Option.some.inj hv').symm
    · rw [runStore, create_job_store_dup j t a s hp, hv] at hv'
      exact (Option.some.inj hv').symm
  | delete j vv =>
    rw [show opMutates x (AveryOp.delete j vv) s = false from rfl,
      if_neg Bool.false_ne_true]
    rcases deleteOne_cases (fun d => d.job_id == j && d.version == vv) s with
      ⟨heq, _⟩ | ⟨l1, d, l2, hs, _, _, heq⟩
    · rw [show runStore (AveryOp.delete j vv) s = s from by
        rw [runStore]; simp [delete_job, heq], hv] at hv'
      exact (Option.some.inj hv').symm
    · rw [show runStore (AveryOp.delete j vv) s = l1 ++ l2 from by
        rw [runStore]; simp [delete_job, heq]] at hv'
      have hrem := versionOf_remove x l1 l2 d (hs ▸ hU)
      by_cases hx : d.job_id = x
      · rw [hrem.1 hx] at hv'
        exact Option.noConfusion hv'
      · rw [hrem.2 hx, ← hs, hv] at hv'
        exact (Option.some.inj hv').symm
  | acquire t1 t2 t3 tg w =>
    rcases try_idle_cases t1 tg w s with ⟨heq, _⟩ | ⟨l1, pre, l2, hs, _, _, heq⟩
    · have hacq : acquire_job false false t1 t2 t3 tg w s =
          try_reacquire_locked_job false t2 t3 tg w s := by simp [acquire_job, heq]
      rcases try_reclaim_cases t2 t3 tg w s with ⟨heq2, _⟩ | ⟨m1, p2, m2, hs2, _, _, heq2⟩
      · have hmut : opMutates x (AveryOp.acquire t1 t2 t3 tg w) s = false := by
          simp [opMutates, hacq, heq2]
        rw [hmut, if_neg Bool.false_ne_true]
        rw [show runStore (AveryOp.acquire t1 t2 t3 tg w) s = s from by
          rw [runStore, hacq, heq2], hv] at hv'
        exact (Option.some.inj hv').symm
      · have hacq2 : acquire_job false false t1 t2 t3 tg w s =
            (Except.ok (some (acquireUpdate w t3 p2)),
              m1 ++ acquireUpdate w t3 p2 :: m2) := by
          rw [hacq, heq2]
        rw [show runStore (AveryOp.acquire t1 t2 t3 tg w) s =
            m1 ++ acquireUpdate w t3 p2 :: m2 from by rw [runStore, hacq2]] at hv'
        have hstep := version_step_replace x m1 m2 p2 (acquireUpdate w t3 p2)
          rfl rfl (hs2 ▸ hU) v v' (hs2 ▸ hv) hv'
        have hmut : opMutates x (AveryOp.acquire t1 t2 t3 tg w) s = (p2.job_id == x) := by
          simp [opMutates, hacq2, acquireUpdate]
        rw [hmut]
        by_cases hx : p2.job_id = x
        · rw [if_pos hx] at hstep
          rw [hstep, if_pos (by simp [hx])]
        · rw [if_neg hx] at hstep
          rw [hstep, if_neg (by simp [hx])]
    · have hacq : acquire_job false false t1 t2 t3 tg w s =
          (Except.ok (some (acquireUpdate w t1 pre)),
            l1 ++ acquireUpdate w t1 pre :: l2) := by
        simp [acquire_job, heq]
      rw [show runStore (AveryOp.acquire t1 t2 t3 tg w) s =
          l1 ++ acquireUpdate w t1 pre :: l2 from by rw [runStore, hacq]] at hv'
      have hstep := version_step_replace x l1 l2 pre (acquireUpdate w t1 pre)
        rfl rfl (hs ▸ hU) v v' (hs ▸ hv) hv'
      have hmut : opMutates x (AveryOp.acquire t1 t2 t3 tg w) s = (pre.job_id == x) := by
        simp [opMutates, hacq, acquireUpdate]
      rw [hmut]
      by_cases hx : pre.job_id = x
      · rw [if_pos hx] at hstep
        rw [hstep, if_pos (by simp [hx])]
      · rw [if_neg hx] at hstep
        rw [hstep, if_neg (by simp [hx])]

theorem presentThrough_head (x : String) (ops : List AveryOp) (s : List JobDoc)
    (h : presentThrough x ops s = true) : presentIn x s = true := by
  cases ops with
  | nil => exact h
  | cons op ops =>
    rw [presentThrough, Bool.and_eq_true] at h
    exact h.1

/-- Folding `version_step` over a run: while a record stays present, its
version grows by exactly the number of successful mutations that hit it. -/
theorem version_fold (ops : List AveryOp) (s : List JobDoc) (x : String) (v : Nat)
    (hU : UniqueKeys s) (hv : versionOf x s = some v)
    (hp : presentThrough x ops s = true) :
    versionOf x (runStores ops s) = some (v + countMutations x ops s) := by
  induction ops generalizing s v with
  | nil =>
    rw [runStores, countMutations, hv]
    rfl
  | cons op ops ih =>
    rw [presentThrough, Bool.and_eq_true] at hp
    have hpres : presentIn x (runStore op s) = true := presentThrough_head x ops _ hp.2
    have hsome := (presentIn_iff_versionOf x (runStore op s)).mp hpres
    rcases Option.isSome_iff_exists.mp hsome with ⟨v1, hv1⟩
    have hstep := version_step op s x hU v v1 hv hv1
    have hU' := uniqueKeys_runStore op s hU
    have hrec := ih (runStore op s) v1 hU' hv1 hp.2
    rw [runStores, hrec]
    congr 1
    rw [countMutations, hstep]
    by_cases hmm : opMutates x op s = true
    · rw [if_pos hmm, if_pos hmm]
      omega
    · rw [if_neg hmm, if_neg hmm]
      omega

theorem versionOf_append_fresh (x : String) (s : List JobDoc) (doc : JobDoc)
    (h : presentIn x s = false) (hdoc : doc.job_id = x) :
    versionOf x (s ++ [doc]) = some doc.version := by
  rw [presentIn, List.any_eq_false] at h
  rw [versionOf, find?_append_key_absent x s [doc] (fun e he => by simpa using h e he)]
  simp [hdoc]

end Avery

namespace Avery

/-- C5: version-counting invariant.  (1) A job created on a store not holding
its `job_id` is inserted with version 0; (2) each single fault-free operation
changes a present record's version by exactly 1 when it successfully mutates
it and leaves it unchanged otherwise — in particular the version never
decreases or resets while the record exists; (3) along any run of operations
during which the record stays present, the version equals the starting
version plus the number of successful mutations; (4) hence a record created
at version 0 has version N after N successful mutations. -/
theorem c5_version_counting :
    (∀ (jid tag : String) (args : Option (List (String × String))) (s : List JobDoc),
       presentIn jid s = false →
       runStore (AveryOp.create jid tag args) s = s ++ [newJobDoc jid tag args] ∧
       versionOf jid (runStore (AveryOp.create jid tag args) s) = some 0) ∧
    (∀ (op : AveryOp) (s : List JobDoc) (x : String) (v v' : Nat), UniqueKeys s →
       versionOf x s = some v → versionOf x (runStore op s) = some v' →
       v' = if opMutates x op s = true then v + 1 else v) ∧
    (∀ (ops : List AveryOp) (s : List JobDoc) (x : String) (v : Nat), UniqueKeys s →
       versionOf x s = some v → presentThrough x ops s = true →
       versionOf x (runStores ops s) = some (v + countMutations x ops s)) ∧
    (∀ (ops : List AveryOp) (jid tag : String)
       (args : Option (List (String × String))) (s : List JobDoc), UniqueKeys s →
       presentIn jid s = false →
       presentThrough jid ops (runStore (AveryOp.create jid tag args) s) = true →
       versionOf jid (runStores ops (runStore (AveryOp.create jid tag args) s)) =
         some (countMutations jid ops (runStore (AveryOp.create jid tag args) s))) := by
  have hcreate : ∀ (jid tag : String) (args : Option (List (String × String)))
      (s : List JobDoc), presentIn jid s = false →
      runStore (AveryOp.create jid tag args) s = s ++ [newJobDoc jid tag args] ∧
      versionOf jid (runStore (AveryOp.create jid tag args) s) = some 0 := by
    intro jid tag args s h
    have hst : runStore (AveryOp.create jid tag args) s = s ++ [newJobDoc jid tag args] := by
      rw [runStore]
      exact create_job_store_fresh jid tag args s h
    refine ⟨hst, ?_⟩
    rw [hst]
    exact versionOf_append_fresh jid s _ h rfl
  refine ⟨hcreate, fun op s x v v' hU hv hv' => version_step op s x hU v v' hv hv', version_fold, ?_⟩
  intro ops jid tag args s hU hfresh hthr
  have h0 := (hcreate jid tag args s hfresh).2
  have hU' : UniqueKeys (runStore (AveryOp.create jid tag args) s) :=
    uniqueKeys_runStore _ s hU
  have := version_fold ops _ jid 0 hU' h0 hthr
  rw [this]
  rw [Nat.zero_add]

/-- Witness for `c5_version_counting`: job `"j"` created on the empty store
has version 0; after the successful mutations cancel (at version 0) and a
further finalize (at version 1) it has version 2, matching the mutation
count. -/
theorem c5_witness :
    (runStore (AveryOp.create "j" "t" none) [] = [] ++ [newJobDoc "j" "t" none] ∧
       versionOf "j" (runStore (AveryOp.create "j" "t" none) []) = some 0) ∧
    versionOf "j"
        (runStores [AveryOp.cancel "j" 0, AveryOp.finalize "j" 1 "done" none]
          (runStore (AveryOp.create "j" "t" none) [])) =
      some (countMutations "j" [AveryOp.cancel "j" 0, AveryOp.finalize "j" 1 "done" none]
        (runStore (AveryOp.create "j" "t" none) [])) ∧
    countMutations "j" [AveryOp.cancel "j" 0, AveryOp.finalize "j" 1 "done" none]
        (runStore (AveryOp.create "j" "t" none) []) = 2 := by
  refine ⟨c5_version_counting.1 "j" "t" none [] (by decide), ?_, by decide⟩
  exact c5_version_counting.2.2.2 [AveryOp.cancel "j" 0, AveryOp.finalize "j" 1 "done" none]
    "j" "t" none [] List.nodup_nil (by decide) (by decide)

end Avery

namespace Avery

/-! ### Concurrent acquisition (claim C10)

Each acquisition phase is one atomic `find_one_and_update` against the shared
store (the store guarantees the four primitives are individually atomic), so a
concurrent execution of two `acquire_job` calls is an arbitrary interleaving
of their phase operations. -/

/-- Timing and identity of one worker's `acquire_job` call: `tI` is the
`utcnow` taken in its idle phase, `tRq` and `tRs` the two `utcnow` calls of
its reclaim phase. -/
structure WParams where
  tI : Int
  tRq : Int
  tRs : Int
  tags : List String
  wid : String

/-- Control state of one in-flight `acquire_job` call: before its idle-phase
store operation, between the two phases (idle phase found nothing), or
returned with its result. -/
inductive WSt where
  | start
  | idleFailed
  | finished (r : Option JobDoc)
deriving DecidableEq

/-- One atomic step of an in-flight `acquire_job` call, following the control
flow of the source: run the idle phase first; only if it found nothing run the
reclaim phase; a finished call does not step.  (Fault-free runs never take the
error branches.) -/
def wStep (p : WParams) (st : WSt) (s : List JobDoc) : WSt × List JobDoc :=
  match st with
  | WSt.start =>
      match try_acquire_idle_job false p.tI p.tags p.wid s with
      | (Except.ok (some j), s') => (WSt.finished (some j), s')
      | (Except.ok none, s') => (WSt.idleFailed, s')
      | (Except.error _, s') => (WSt.start, s')
  | WSt.idleFailed =>
      match try_reacquire_locked_job false p.tRq p.tRs p.tags p.wid s with
      | (Except.ok r, s') => (WSt.finished r, s')
      | (Except.error _, s') => (WSt.idleFailed, s')
  | WSt.finished r => (WSt.finished r, s)

/-- Run an interleaving of two concurrent `acquire_job` calls over the shared
store: `true` steps worker 1, `false` steps worker 2. -/
def run2 (p1 p2 : WParams) : List Bool → WSt × WSt × List JobDoc → WSt × WSt × List JobDoc
  | [], c => c
  | b :: bs, c =>
      if b then
        run2 p1 p2 bs ((wStep p1 c.1 c.2.2).1, c.2.1, (wStep p1 c.1 c.2.2).2)
      else
        run2 p1 p2 bs (c.1, (wStep p2 c.2.1 c.2.2).1, (wStep p2 c.2.1 c.2.2).2)

/-- Reachable configurations of two acquisitions racing for the single idle
job `d`: nobody has claimed it yet, or exactly one worker holds it (the job is
`LOCKED` by that worker) while the other has not claimed anything. -/
def Inv (p1 p2 : WParams) (d : JobDoc) (c : WSt × WSt × List JobDoc) : Prop :=
  (c.1 = WSt.start ∧ c.2.1 = WSt.start ∧ c.2.2 = [d]) ∨
  (c.1 = WSt.finished (some (acquireUpdate p1.wid p1.tI d)) ∧
     (c.2.1 = WSt.start ∨ c.2.1 = WSt.idleFailed ∨ c.2.1 = WSt.finished none) ∧
     c.2.2 = [acquireUpdate p1.wid p1.tI d]) ∨
  (c.2.1 = WSt.finished (some (acquireUpdate p2.wid p2.tI d)) ∧
     (c.1 = WSt.start ∨ c.1 = WSt.idleFailed ∨ c.1 = WSt.finished none) ∧
     c.2.2 = [acquireUpdate p2.wid p2.tI d])

theorem wStep_start_idle (p : WParams) (d : JobDoc)
    (htag : d.tag ∈ p.tags) (hst : d.status = IDLE) :
    wStep p WSt.start [d] =
      (WSt.finished (some (acquireUpdate p.wid p.tI d)), [acquireUpdate p.wid p.tI d]) := by
  have hq : idleQuery p.tags d = true := (idleQuery_eq_true _ _).mpr ⟨htag, hst⟩
  simp [wStep, try_acquire_idle_job, worker_update, findOneAndUpdate, hq]

theorem wStep_start_locked (p : WParams) (ld : JobDoc) (hst : ld.status ≠ IDLE) :
    wStep p WSt.start [ld] = (WSt.idleFailed, [ld]) := by
  have hq : idleQuery p.tags ld = false := (idleQuery_eq_false _ _).mpr (fun h => hst h.2)
  simp [wStep, try_acquire_idle_job, worker_update, findOneAndUpdate, hq]

theorem wStep_reclaim_fresh (p : WParams) (ld : JobDoc) (t : Int)
    (hhb : ld.worker_heartbeat = some t) (ht : ¬ t < p.tRq - HEARTBEAT_TIMEOUT) :
    wStep p WSt.idleFailed [ld] = (WSt.finished none, [ld]) := by
  have hq : staleQuery p.tags p.tRq ld = false := by
    rw [staleQuery_eq_false]
    rintro ⟨_, _, hb, hbe, hlt⟩
    rw [hhb] at hbe
    have hteq : t = hb := Option.some.inj hbe
    exact ht (by rw [hteq]; exact hlt)
  simp [wStep, try_reacquire_locked_job, worker_update, findOneAndUpdate, hq]

end Avery

namespace Avery

theorem inv_wStep1 (p1 p2 : WParams) (d : JobDoc)
    (hst : d.status = IDLE) (h1 : d.tag ∈ p1.tags)
    (ht21 : p1.tRq ≤ p2.tI + HEARTBEAT_TIMEOUT)
    (c : WSt × WSt × List JobDoc) (hc : Inv p1 p2 d c) :
    Inv p1 p2 d ((wStep p1 c.1 c.2.2).1, c.2.1, (wStep p1 c.1 c.2.2).2) := by
  rcases hc with ⟨ha, hb, hs⟩ | ⟨ha, hb, hs⟩ | ⟨ha, hb, hs⟩
  · rw [ha, hs, wStep_start_idle p1 d h1 hst]
    exact Or.inr (Or.inl ⟨rfl, Or.inl hb, rfl⟩)
  · rw [ha, hs]
    exact Or.inr (Or.inl ⟨rfl, hb, rfl⟩)
  · rcases hb with hb | hb | hb
    · rw [hb, hs, wStep_start_locked p1 (acquireUpdate p2.wid p2.tI d) (by
        rw [show (acquireUpdate p2.wid p2.tI d).status = LOCKED from rfl]
        decide)]
      exact Or.inr (Or.inr ⟨ha, Or.inr (Or.inl rfl), rfl⟩)
    · rw [hb, hs, wStep_reclaim_fresh p1 (acquireUpdate p2.wid p2.tI d) p2.tI rfl
        (not_lt.mpr (sub_le_iff_le_add.mpr ht21))]
      exact Or.inr (Or.inr ⟨ha, Or.inr (Or.inr rfl), rfl⟩)
    · rw [hb, hs]
      exact Or.inr (Or.inr ⟨ha, Or.inr (Or.inr rfl), rfl⟩)

theorem inv_wStep2 (p1 p2 : WParams) (d : JobDoc)
    (hst : d.status = IDLE) (h2 : d.tag ∈ p2.tags)
    (ht12 : p2.tRq ≤ p1.tI + HEARTBEAT_TIMEOUT)
    (c : WSt × WSt × List JobDoc) (hc : Inv p1 p2 d c) :
    Inv p1 p2 d (c.1, (wStep p2 c.2.1 c.2.2).1, (wStep p2 c.2.1 c.2.2).2) := by
  rcases hc with ⟨ha, hb, hs⟩ | ⟨ha, hb, hs⟩ | ⟨ha, hb, hs⟩
  · rw [hb, hs, wStep_start_idle p2 d h2 hst]
    exact Or.inr (Or.inr ⟨rfl, Or.inl ha, rfl⟩)
  · rcases hb with hb | hb | hb
    · rw [hb, hs, wStep_start_locked p2 (acquireUpdate p1.wid p1.tI d) (by
        rw [show (acquireUpdate p1.wid p1.tI d).status = LOCKED from rfl]
        decide)]
      exact Or.inr (Or.inl ⟨ha, Or.inr (Or.inl rfl), rfl⟩)
    · rw [hb, hs, wStep_reclaim_fresh p2 (acquireUpdate p1.wid p1.tI d) p1.tI rfl
        (not_lt.mpr (sub_le_iff_le_add.mpr ht12))]
      exact Or.inr (Or.inl ⟨ha, Or.inr (Or.inr rfl), rfl⟩)
    · rw [hb, hs]
      exact Or.inr (Or.inl ⟨ha, Or.inr (Or.inr rfl), rfl⟩)
  · rw [ha, hs]
    exact Or.inr (Or.inr ⟨rfl, hb, rfl⟩)

theorem run2_inv (p1 p2 : WParams) (d : JobDoc)
    (hst : d.status = IDLE) (h1 : d.tag ∈ p1.tags) (h2 : d.tag ∈ p2.tags)
    (ht12 : p2.tRq ≤ p1.tI + HEARTBEAT_TIMEOUT)
    (ht21 : p1.tRq ≤ p2.tI + HEARTBEAT_TIMEOUT) :
    ∀ (sched : List Bool) (c : WSt × WSt × List JobDoc),
      Inv p1 p2 d c → Inv p1 p2 d (run2 p1 p2 sched c) := by
  intro sched
  induction sched with
  | nil => exact fun c hc => hc
  | cons b bs ih =>
    intro c hc
    cases b
    · rw [run2, if_neg Bool.false_ne_true]
      exact ih _ (inv_wStep2 p1 p2 d hst h2 ht12 c hc)
    · rw [run2, if_pos rfl]
      exact ih _ (inv_wStep1 p1 p2 d hst h1 ht21 c hc)

/-- C10: mutual exclusion of concurrent claims.  Two concurrent `acquire_job`
calls, each of whose phases is one atomic store operation, race under an
arbitrary interleaving for a single `IDLE` job whose tag both request (no
other job exists, and the calls happen within the heartbeat window, so a
freshly written heartbeat is not yet stale for the other call's reclaim
query).  If both calls return, exactly one obtained the job — locked by that
worker with its heartbeat and an incremented version — and the other returns
`none` ("none available"); in no interleaving do both succeed, in either
acquisition phase. -/
theorem c10_mutual_exclusion (p1 p2 : WParams) (d : JobDoc) (sched : List Bool)
    (hst : d.status = IDLE) (h1 : d.tag ∈ p1.tags) (h2 : d.tag ∈ p2.tags)
    (ht12 : p2.tRq ≤ p1.tI + HEARTBEAT_TIMEOUT)
    (ht21 : p1.tRq ≤ p2.tI + HEARTBEAT_TIMEOUT)
    (r1 r2 : Option JobDoc) (s' : List JobDoc)
    (hrun : run2 p1 p2 sched (WSt.start, WSt.start, [d]) =
      (WSt.finished r1, WSt.finished r2, s')) :
    (r1 = some (acquireUpdate p1.wid p1.tI d) ∧ r2 = none ∧
       s' = [acquireUpdate p1.wid p1.tI d]) ∨
    (r2 = some (acquireUpdate p2.wid p2.tI d) ∧ r1 = none ∧
       s' = [acquireUpdate p2.wid p2.tI d]) := by
  have hinv := run2_inv p1 p2 d hst h1 h2 ht12 ht21 sched
    (WSt.start, WSt.start, [d]) (Or.inl ⟨rfl, rfl, rfl⟩)
  rw [hrun] at hinv
  rcases hinv with ⟨ha, _, _⟩ | ⟨ha, hb, hs⟩ | ⟨ha, hb, hs⟩
  · exact WSt.noConfusion ha
  · left
    refine ⟨WSt.finished.inj ha, ?_, hs⟩
    rcases hb with hb | hb | hb
    · exact WSt.noConfusion hb
    · exact WSt.noConfusion hb
    · exact WSt.finished.inj hb
  · right
    refine ⟨WSt.finished.inj ha, ?_, hs⟩
    rcases hb with hb | hb | hb
    · exact WSt.noConfusion hb
    · exact WSt.noConfusion hb
    · exact WSt.finished.inj hb

/-- Parameters of the two concrete racing workers in `c10_witness`. -/
def p1w : WParams := { tI := 10, tRq := 20, tRs := 21, tags := ["t"], wid := "w1" }

/-- See `p1w`. -/
def p2w : WParams := { tI := 12, tRq := 22, tRs := 23, tags := ["t"], wid := "w2" }

/-- Witness for `c10_mutual_exclusion`: under the schedule where worker 1
claims first, worker 1 gets the job and worker 2 finishes with `none`. -/
theorem c10_witness :
    ((some (acquireUpdate p1w.wid p1w.tI sampleIdle) : Option JobDoc) =
         some (acquireUpdate p1w.wid p1w.tI sampleIdle) ∧
       (none : Option JobDoc) = none ∧
       [acquireUpdate p1w.wid p1w.tI sampleIdle] =
         [acquireUpdate p1w.wid p1w.tI sampleIdle]) ∨
    ((none : Option JobDoc) = some (acquireUpdate p2w.wid p2w.tI sampleIdle) ∧
       (some (acquireUpdate p1w.wid p1w.tI sampleIdle) : Option JobDoc) = none ∧
       [acquireUpdate p1w.wid p1w.tI sampleIdle] =
         [acquireUpdate p2w.wid p2w.tI sampleIdle]) :=
  c10_mutual_exclusion p1w p2w sampleIdle [true, false, false]
    (by decide) (by decide) (by decide) (by decide) (by decide)
    (some (acquireUpdate p1w.wid p1w.tI sampleIdle)) none
    [acquireUpdate p1w.wid p1w.tI sampleIdle] (by decide)

end Avery
